import Mathlib

/-!
Verification development for the `cosmic17.wire` dependency-injection
decorator utility (file `src/cosmic17/wire/__init__.py`).

The Python module is shallowly embedded as follows.

* Python attribute values that appear in the claims are modelled by the
  inductive type `Wire.Val` (`None`, integers, strings).
* An instance's attribute dictionary is an association list `Wire.Inst`.
* The decorator class `value` (a `property` subclass) becomes the structure
  `Wire.value` with fields `path`, `fget`, `fset`, `fdel`, matching the
  `property` attribute names.  A freshly constructed `value(path)` has all
  three accessor slots empty, as `property.__new__` leaves them.
* Python object identity and the class attribute `value._to_wire` (the global
  declaration registry) are modelled by a heap: `Wire.WireState` holds a list
  of declaration records (`heap`, index = object identity) and the registry
  `to_wire` as a list of heap indices, mirroring a Python list of references.
* `value.__rcall__` (decoration), `value.setter`, `value.getter` and
  `value.deleter` become state transitions on `Wire.WireState`.  A raised
  `AttributeError` is an `Except.error`.
* The generated constructor wrapper `_mapping.new_init`'s inner
  `new__init__` becomes `Wire.new_init`; `inspect.signature(...).bind_partial`
  becomes `Wire.bind_args`; the call of the original constructor becomes
  `Wire.call_init` over a `Wire.PyInit` record (parameter list, defaults and
  a body building the instance's attributes from the bound arguments).
  A raised exception is an `Except.error`; the bare `except:` of phase 1 and
  the `except Exception` of phase 2 both catch the single modelled error
  channel.  Parser consultations are additionally recorded in a trace of
  `Wire.PCall` events so that theorems can speak about which parameters the
  parser was consulted for; the trace is observation only, it does not feed
  back into the computation.
* `value.wire_all` becomes `Wire.wire_all`.  The owning scope of each
  declaration -- in Python derived via `inspect.getmodule` and a
  `walk_namespace` over `__qualname__` -- is host-language introspection and
  is therefore modelled as data: each registry entry carries the resolution
  outcome (`Wire.Owner`): `orphan` (the `ModuleNotFoundError` / silent-skip
  case), `cls c` (owning scope is a class), `mod` (owning scope is the
  declaring module itself) or `other` (the defensive `AttributeError` branch).
  `wire_all` emits a trace of `Wire.WEvent`s: parser calls and write-accessor
  calls of module-level function injection (tagged with the registry index of
  the declaration that caused them), the `__rcall__` reset, and one `wrap`
  event per class whose constructor is replaced.
-/

namespace Wire

/-- Python values occurring in the claims: `None`, ints and strings. -/
inductive Val where
  | none : Val
  | int : Int → Val
  | str : String → Val
  deriving DecidableEq, Repr

instance : Inhabited Val := ⟨Val.none⟩

/-- An instance's attribute dictionary (`self.__dict__`). -/
abbrev Inst := List (String × Val)

/-- Dictionary update: replace in place if the key exists, else append,
matching Python `dict` assignment order. -/
def upsert : List (String × Val) → String → Val → List (String × Val)
  | [], k, v => [(k, v)]
  | (k', v') :: rest, k, v =>
      if k' = k then (k, v) :: rest else (k', v') :: upsert rest k v

/-- Dictionary lookup. -/
def alookup : List (String × Val) → String → Option Val
  | [], _ => Option.none
  | (k', v') :: rest, k => if k' = k then some v' else alookup rest k

/-- Attribute read with Python's `None` as the default for the theorems'
convenience (the embedded code never reads a missing attribute). -/
def getAttr (i : Inst) (n : String) : Val := (alookup i n).getD Val.none

/-- A read accessor: the decorated getter function, with its `__name__`
and its behaviour on an instance. -/
structure GetAcc where
  name : String
  fn : Inst → Val
  deriving Inhabited

/-- A write accessor: the decorated setter function, with its `__name__`
and its behaviour `fset(self, val)` on an instance. -/
structure SetAcc where
  name : String
  fn : Inst → Val → Inst
  deriving Inhabited

/-- The declaration object produced by the `value` decorator class
(a `property` subclass): a path plus the three accessor slots. -/
structure value where
  path : String
  fget : Option GetAcc
  fset : Option SetAcc
  fdel : Option String
  deriving Inhabited

/-- A Python function as seen by the decorator: its `__name__`, its declared
parameter names in order, and its semantics when used as a getter or as a
setter (only the slot matching its classification is ever consulted). -/
structure PyFn where
  name : String
  params : List String
  getSem : Inst → Val
  setSem : Inst → Val → Inst

/-- Global decoration state: the heap of declaration objects (index =
object identity) and the registry `value._to_wire` as heap indices. -/
structure WireState where
  heap : List value
  to_wire : List Nat

/-- `value.__init__(self, path)`: allocate a fresh declaration object with
only `path` set; `property.__new__` leaves `fget`/`fset`/`fdel` as `None`.
Returns the new object's identity and the new state.  Nothing is registered
here. -/
def mkValue (st : WireState) (path : String) : Nat × WireState :=
  (st.heap.length,
   { heap := st.heap ++ [{ path := path, fget := Option.none,
                           fset := Option.none, fdel := Option.none }],
     to_wire := st.to_wire })

/-- The receiver-independent parameters of a function: `__rcall__` pops the
keys `self` and `cls` from the (uniquely-keyed) parameter mapping. -/
def nonReceiver (params : List String) : List String :=
  (params.erase "self").erase "cls"

/-- `value.__rcall__(self, func)`: classify `func` by its number of
receiver-independent parameters -- 0 makes it the read accessor, 1 the write
accessor, anything else raises `AttributeError` -- then append `self` to
`value._to_wire`.  On the error path neither the object nor the registry is
touched (the raise happens before both the slot update and the append). -/
def rcall (st : WireState) (id : Nat) (f : PyFn) :
    WireState × Except Unit Unit :=
  let d := st.heap.getD id default
  let lp := (nonReceiver f.params).length
  if lp = 0 then
    ({ heap := st.heap.set id { d with fget := some ⟨f.name, f.getSem⟩ },
       to_wire := st.to_wire ++ [id] }, Except.ok ())
  else if lp = 1 then
    ({ heap := st.heap.set id { d with fset := some ⟨f.name, f.setSem⟩ },
       to_wire := st.to_wire ++ [id] }, Except.ok ())
  else
    (st, Except.error ())

/-- `value.setter(self, fset)`: replace the write-accessor slot and return
`self` (the same object); no registration. -/
def setterOp (st : WireState) (id : Nat) (f : PyFn) : WireState × Nat :=
  ({ heap := st.heap.set id
       { st.heap.getD id default with fset := some ⟨f.name, f.setSem⟩ },
     to_wire := st.to_wire }, id)

/-- `value.getter(self, fget)`: replace the read-accessor slot and return
`self`; no registration. -/
def getterOp (st : WireState) (id : Nat) (f : PyFn) : WireState × Nat :=
  ({ heap := st.heap.set id
       { st.heap.getD id default with fget := some ⟨f.name, f.getSem⟩ },
     to_wire := st.to_wire }, id)

/-- `value.deleter(self, fdel)`: replace the delete-accessor slot and return
`self`; no registration. -/
def deleterOp (st : WireState) (id : Nat) (f : PyFn) : WireState × Nat :=
  ({ heap := st.heap.set id
       { st.heap.getD id default with fdel := some f.name },
     to_wire := st.to_wire }, id)

/-- The original constructor `cls.__init__` as captured by `_mapping`: its
declared parameter list (first entry is the receiver, conventionally
`self`), the defaults of its defaulted parameters, and its body, which
receives the instance and the fully bound non-receiver arguments (in
parameter order) and produces the updated instance. -/
structure PyInit where
  params : List String
  defaults : List (String × Val)
  body : Inst → List (String × Val) → Inst

/-- The parser: `value.parser`, a `path -> value` function; a raised
exception is `Except.error`. -/
abbrev Parser := String → Except String Val

/-- The accessor used as `checker` when building the wrapper's `attr_map`:
`value_.fget if value_.fget else value_.fset` (its `__name__`).  Every
declaration produced by `__rcall__` has at least one accessor, so the
empty-string fallback for the accessor-free record is unreachable there. -/
def checker_name (v : value) : String :=
  match v.fget with
  | some g => g.name
  | Option.none =>
      match v.fset with
      | some s => s.name
      | Option.none => ""

/-- The key set of the wrapper's `attr_map` (a `dict` keyed by
`checker.__name__`, built over `values` in order; only key membership is
ever read from it). -/
def attr_map_keys (values : List value) : List String :=
  values.foldl
    (fun ks v => if checker_name v ∈ ks then ks else ks ++ [checker_name v]) []

/-- After the `for value_ in values` loop that builds `attr_map`, the Python
loop variable `value_` is left bound to the LAST element of `values`; the
constructor-injection loop then reads `value_.path` from it.  For empty
`values` the variable would be unbound, but the only use is guarded by
`attr_map` membership, which is then unsatisfiable. -/
def last_path (values : List value) : String :=
  match values.getLast? with
  | some v => v.path
  | Option.none => ""

/-- Keyword-argument check shared by binding: every key must name a
parameter and must not collide with a positionally bound one
(`TypeError` otherwise). -/
def check_kwargs (params posNames : List String) :
    List (String × Val) → Except String Unit
  | [] => Except.ok ()
  | (k, _) :: rest =>
      if k ∈ params then
        if k ∈ posNames then Except.error ("multiple values for argument " ++ k)
        else check_kwargs params posNames rest
      else Except.error ("unexpected keyword argument " ++ k)

/-- `inspect.signature(cls__init__).bind_partial(self, *args, **kwargs)`:
bind the receiver plus `args` positionally and `kwargs` by name, with no
defaults applied and no missing-argument check; the result is the set of
explicitly bound parameter names (`.arguments` is only ever read for key
membership by the wrapper, and its values are reachable from
`args`/`kwargs` directly). -/
def bind_args (params : List String) (args : List Val)
    (kwargs : List (String × Val)) : Except String (List String) :=
  let posCount := 1 + args.length
  if params.length < posCount then
    Except.error "too many positional arguments"
  else
    let posNames := params.take posCount
    match check_kwargs params posNames kwargs with
    | Except.error e => Except.error e
    | Except.ok _ => Except.ok (posNames ++ kwargs.map (fun p => p.1))

/-- Bind values to the non-receiver parameters in order: positionals first,
then keywords, then defaults; a parameter bound by none of them raises the
constructor's own missing-required-argument `TypeError`. -/
def build_bound : List String → List Val → List (String × Val) →
    List (String × Val) → Except String (List (String × Val))
  | [], _, _, _ => Except.ok []
  | p :: ps, a :: as, kwargs, defaults =>
      match build_bound ps as kwargs defaults with
      | Except.ok r => Except.ok ((p, a) :: r)
      | Except.error e => Except.error e
  | p :: ps, [], kwargs, defaults =>
      match alookup kwargs p with
      | some v =>
          match build_bound ps [] kwargs defaults with
          | Except.ok r => Except.ok ((p, v) :: r)
          | Except.error e => Except.error e
      | Option.none =>
          match alookup defaults p with
          | some v =>
              match build_bound ps [] kwargs defaults with
              | Except.ok r => Except.ok ((p, v) :: r)
              | Except.error e => Except.error e
          | Option.none =>
              Except.error ("missing required argument " ++ p)

/-- The call `cls__init__(self, *args, **kwargs)`: full binding of the
original constructor's parameters (receiver positionally first, then
`args`, then `kwargs`, then defaults; errors on excess positionals, bad or
colliding keywords, and missing required parameters), then the body runs on
the bound arguments. -/
def call_init (ci : PyInit) (self : Inst) (args : List Val)
    (kwargs : List (String × Val)) : Except String Inst :=
  let posCount := 1 + args.length
  if ci.params.length < posCount then
    Except.error "too many positional arguments"
  else
    match check_kwargs ci.params (ci.params.take posCount) kwargs with
    | Except.error e => Except.error e
    | Except.ok _ =>
        match build_bound (ci.params.drop 1) args kwargs ci.defaults with
        | Except.ok bound => Except.ok (ci.body self bound)
        | Except.error e => Except.error e

/-- Which of the wrapper's two injection loops consulted the parser. -/
inductive Phase where
  | one : Phase
  | two : Phase
  deriving DecidableEq, Repr

/-- One parser consultation by the wrapper: the phase, the name it was for
(the constructor parameter in phase 1, the write accessor's `__name__` in
phase 2) and the path the parser was called with. -/
structure PCall where
  phase : Phase
  name : String
  path : String
  deriving DecidableEq, Repr

/-- State of the constructor-injection loop (phase 1): the growing
`kwargs` dict, the `arguments` key set, and the parser-call trace. -/
structure P1Acc where
  kwargs : List (String × Val)
  argNames : List String
  calls : List PCall

/-- Phase 1, constructor injection: for each parameter of the original
constructor, in signature order, skip it unless it is an `attr_map` key not
yet in `arguments`; otherwise consult the parser with `value_.path` -- the
leaked loop variable, i.e. the LAST grouped declaration's path -- and on
success store the result in `kwargs` and mark the parameter in `arguments`;
the bare `except:` swallows a parser failure. -/
def phase1 (parser : Parser) (attrKeys : List String) (leakPath : String) :
    List String → P1Acc → P1Acc
  | [], acc => acc
  | p :: rest, acc =>
      if p ∈ attrKeys ∧ p ∉ acc.argNames then
        match parser leakPath with
        | Except.ok v =>
            phase1 parser attrKeys leakPath rest
              { kwargs := upsert acc.kwargs p v,
                argNames := acc.argNames ++ [p],
                calls := acc.calls ++ [⟨Phase.one, p, leakPath⟩] }
        | Except.error _ =>
            phase1 parser attrKeys leakPath rest
              { acc with calls := acc.calls ++ [⟨Phase.one, p, leakPath⟩] }
      else phase1 parser attrKeys leakPath rest acc

/-- State of the setter-injection loop (phase 2): the instance being
mutated and the parser-call trace. -/
structure P2Acc where
  inst : Inst
  calls : List PCall

/-- Phase 2, setter injection: for each grouped declaration with a write
accessor whose `__name__` is not in `arguments`, consult the parser with
that declaration's path and on success call the write accessor with the
instance and the value; `except Exception` swallows a failure. -/
def phase2 (parser : Parser) (argNames : List String) :
    List value → P2Acc → P2Acc
  | [], acc => acc
  | v :: rest, acc =>
      match v.fset with
      | Option.none => phase2 parser argNames rest acc
      | some s =>
          if s.name ∈ argNames then phase2 parser argNames rest acc
          else
            match parser v.path with
            | Except.ok x =>
                phase2 parser argNames rest
                  { inst := s.fn acc.inst x,
                    calls := acc.calls ++ [⟨Phase.two, s.name, v.path⟩] }
            | Except.error _ =>
                phase2 parser argNames rest
                  { acc with calls := acc.calls ++ [⟨Phase.two, s.name, v.path⟩] }

/-- The generated wrapper `new__init__(self, *args, **kwargs)` produced by
`_mapping.new_init` for a class whose original constructor is `ci` and whose
grouped declarations are `values`: partial-bind the actual arguments
(errors propagate), run phase 1 (constructor injection, errors swallowed),
call the original constructor (errors propagate), run phase 2 (setter
injection, errors swallowed).  Returns the constructed instance and the
trace of parser consultations. -/
def new_init (ci : PyInit) (values : List value) (parser : Parser)
    (self : Inst) (args : List Val) (kwargs : List (String × Val)) :
    Except String (Inst × List PCall) :=
  match bind_args ci.params args kwargs with
  | Except.error e => Except.error e
  | Except.ok bound =>
      let a1 := phase1 parser (attr_map_keys values) (last_path values)
        ci.params { kwargs := kwargs, argNames := bound, calls := [] }
      match call_init ci self args a1.kwargs with
      | Except.error e => Except.error e
      | Except.ok inst1 =>
          let a2 := phase2 parser a1.argNames values
            { inst := inst1, calls := a1.calls }
          Except.ok (a2.inst, a2.calls)

/-- Resolution outcome of a declaration's owning scope, in Python derived by
`inspect.getmodule(checker)` plus `walk_namespace` over
`checker.__qualname__` (with `checker = fset if fset else fget`): `orphan`
models the `ModuleNotFoundError` silent-skip, `cls c` a class owner (class
identity as a number), `mod` the declaring module itself, and `other` the
defensive branch that raises `AttributeError`. -/
inductive Owner where
  | orphan : Owner
  | cls : Nat → Owner
  | mod : Owner
  | other : Owner
  deriving DecidableEq, Repr

/-- One entry of `value._to_wire` as seen by `wire_all`: the declaration
object together with the (derived) resolution outcome of its owning
scope. -/
structure RegEntry where
  decl : value
  owner : Owner

/-- Observable events of a `wire_all` run.  `parserCall`, `fsetCall` and
`rcallReset` carry the registry index of the declaration being processed;
`wrap` records a class constructor being replaced with the generated
wrapper for its grouped declarations. -/
inductive WEvent where
  | parserCall : Nat → String → WEvent
  | fsetCall : Nat → String → Val → WEvent
  | rcallReset : Nat → String → WEvent
  | wrap : Nat → List value → WEvent

/-- Whether an event is a constructor replacement. -/
def WEvent.isWrap : WEvent → Bool
  | WEvent.wrap _ _ => true
  | _ => false

/-- The registry index carried by a loop event (`none` for `wrap`). -/
def WEvent.idx? : WEvent → Option Nat
  | WEvent.parserCall i _ => some i
  | WEvent.fsetCall i _ _ => some i
  | WEvent.rcallReset i _ => some i
  | WEvent.wrap _ _ => Option.none

/-- `cls_map[cns].append(value_)` on a `defaultdict(list)`: key order is
first-insertion order, each group grows at its end. -/
def add_to_group : List (Nat × List value) → Nat → value →
    List (Nat × List value)
  | [], c, d => [(c, [d])]
  | (c', ds) :: rest, c, d =>
      if c' = c then (c', ds ++ [d]) :: rest
      else (c', ds) :: add_to_group rest c d

/-- The single pass of `wire_all` over `value._to_wire`, from registry index
`i0`, threading the class map.  An `orphan` entry is skipped silently; a
class entry is appended to its class's group; a module entry with a write
accessor performs function injection immediately -- `value_.fset
(cls.parser(value_.path))`, the parser error NOT caught, followed by the
`value_.__rcall__ = value_.fset` reset -- and one without a write accessor
is only logged; any `other` owner raises `AttributeError`. -/
def wire_loop (parser : Parser) (i0 : Nat) :
    List RegEntry → List (Nat × List value) →
    Except String (List WEvent × List (Nat × List value))
  | [], cmap => Except.ok ([], cmap)
  | e :: rest, cmap =>
      match e.owner with
      | Owner.orphan => wire_loop parser (i0 + 1) rest cmap
      | Owner.cls c => wire_loop parser (i0 + 1) rest (add_to_group cmap c e.decl)
      | Owner.mod =>
          match e.decl.fset with
          | some s =>
              match parser e.decl.path with
              | Except.ok v =>
                  match wire_loop parser (i0 + 1) rest cmap with
                  | Except.ok (tr, cm) =>
                      Except.ok (WEvent.parserCall i0 e.decl.path ::
                                 WEvent.fsetCall i0 s.name v ::
                                 WEvent.rcallReset i0 s.name :: tr, cm)
                  | Except.error m => Except.error m
              | Except.error m => Except.error m
          | Option.none => wire_loop parser (i0 + 1) rest cmap
      | Owner.other => Except.error "I think you are doing funny stuff"

/-- `value.wire_all()`: the registry pass (module-level function injection
interleaved with class grouping), then, for every class with at least one
grouped declaration, in insertion order, the replacement of its constructor
by the generated wrapper over its grouped declarations. -/
def wire_all (entries : List RegEntry) (parser : Parser) :
    Except String (List WEvent) :=
  match wire_loop parser 0 entries [] with
  | Except.ok (tr, cmap) =>
      Except.ok (tr ++ cmap.map (fun p => WEvent.wrap p.1 p.2))
  | Except.error m => Except.error m

/-! Concrete scenarios used by the claims.

The `foo` scenario is `tests/class_test_sanity.py`: `foo.__init__(self, i)`
sets `self.__bar = None` and `self.__i = i` (name-mangled to `_foo__bar`
and `_foo__i`); declaration `bar` at path `path.to.bar` has a read accessor
and a chained write accessor, declaration `i` at path `path.to.i` has only
a read accessor; the registry groups them for class `foo` in definition
order `[bar, i]`; the parser returns the constant string `ok`. -/

/-- The original `foo.__init__(self, i)` of the sanity test. -/
def fooCi : PyInit :=
  { params := ["self", "i"], defaults := [],
    body := fun self bound =>
      upsert (upsert self "_foo__bar" Val.none) "_foo__i"
        ((alookup bound "i").getD Val.none) }

/-- The `bar` declaration of the sanity test (read and write accessors). -/
def barDecl : value :=
  { path := "path.to.bar",
    fget := some ⟨"bar", fun i => getAttr i "_foo__bar"⟩,
    fset := some ⟨"bar", fun i v => upsert i "_foo__bar" v⟩,
    fdel := Option.none }

/-- The `i` declaration of the sanity test (read accessor only). -/
def iDecl : value :=
  { path := "path.to.i",
    fget := some ⟨"i", fun i => getAttr i "_foo__i"⟩,
    fset := Option.none, fdel := Option.none }

/-- The sanity test's parser: `lambda path: "ok"`. -/
def okParser : Parser := fun _ => Except.ok (Val.str "ok")

/-- A two-parameter constructor `__init__(self, a, b)` that stores each
bound parameter as an instance attribute of the same name. -/
def abCi : PyInit :=
  { params := ["self", "a", "b"], defaults := [],
    body := fun self bound => bound.foldl (fun i p => upsert i p.1 p.2) self }

/-- Declaration `a` at path `path.a` (read accessor only). -/
def aDecl : value :=
  { path := "path.a", fget := some ⟨"a", fun i => getAttr i "a"⟩,
    fset := Option.none, fdel := Option.none }

/-- Declaration `b` at path `path.b` (read accessor only). -/
def bDecl : value :=
  { path := "path.b", fget := some ⟨"b", fun i => getAttr i "b"⟩,
    fset := Option.none, fdel := Option.none }

/-- A parser that returns the path it was called with, so the injected
value records which path was consulted. -/
def idParser : Parser := fun p => Except.ok (Val.str p)

/-- C1: the claim says phase 1 calls the parser with the path of the
Declaration whose accessor name matches the parameter, also for classes
owning two or more declarations.  The code instead reads `value_.path` from
the loop variable leaked out of the attr-map loop, i.e. the LAST grouped
declaration's path, for every injected parameter: with declarations
`a ↦ path.a` and `b ↦ path.b` on `__init__(self, a, b)` and a parser
returning its path, a no-argument construction consults the parser with
`path.b` for BOTH parameters, so attribute `a` ends up as `path.b`, never
resolved from `path.a` as the claim requires. -/
theorem c1_constructor_injection_uses_last_declaration_path :
    new_init abCi [aDecl, bDecl] idParser [] [] [] =
      Except.ok ([("a", Val.str "path.b"), ("b", Val.str "path.b")],
        [⟨Phase.one, "a", "path.b"⟩, ⟨Phase.one, "b", "path.b"⟩]) := rfl

/-- C2 counterexample: the claim says `Foo(5)` raises because `i` is
already supplied positionally.  It does not raise: binding marks `i` as
provided, phase 1 skips it, the original constructor accepts the positional
`5`, and phase 2 still injects `bar`; the call returns a fully constructed
instance with `i = 5` and `bar = "ok"`. -/
theorem c2_counterexample_foo_pos5_does_not_raise :
    new_init fooCi [barDecl, iDecl] okParser [] [Val.int 5] [] =
      Except.ok ([("_foo__bar", Val.str "ok"), ("_foo__i", Val.int 5)],
        [⟨Phase.two, "bar", "path.to.bar"⟩]) := rfl

/-- C2 amended: with the parser returning the constant `"ok"` and the wired
class `Foo.__init__(self, i)` with injectable read-only accessor `i` and
injectable read/write accessor `bar`, calling `Foo(5)` does NOT raise: it
yields an instance with `i == 5` (the parser is not consulted for `i`) and
`bar == "ok"`; and constructing with no `i` given yields `i == "ok"` and
`bar == "ok"`. -/
theorem c2_amended_foo_scenario :
    (∃ r, new_init fooCi [barDecl, iDecl] okParser [] [Val.int 5] [] =
        Except.ok r ∧
      getAttr r.1 "_foo__i" = Val.int 5 ∧
      getAttr r.1 "_foo__bar" = Val.str "ok" ∧
      r.2.all (fun c => c.name ≠ "i")) ∧
    (∃ r, new_init fooCi [barDecl, iDecl] okParser [] [] [] =
        Except.ok r ∧
      getAttr r.1 "_foo__i" = Val.str "ok" ∧
      getAttr r.1 "_foo__bar" = Val.str "ok") := by
  refine ⟨⟨([("_foo__bar", Val.str "ok"), ("_foo__i", Val.int 5)],
    [⟨Phase.two, "bar", "path.to.bar"⟩]), rfl, rfl, rfl, rfl⟩,
    ⟨([("_foo__bar", Val.str "ok"), ("_foo__i", Val.str "ok")],
    [⟨Phase.one, "i", "path.to.i"⟩, ⟨Phase.two, "bar", "path.to.bar"⟩]),
    rfl, rfl, rfl⟩⟩

/-- Reading the element just appended at the old length. -/
lemma getD_append_length (l : List value) (a d : value) :
    (l ++ [a]).getD l.length d = a := by
  induction l with
  | nil => rfl
  | cons x xs ih => simp [ih]

/-- Overwriting the element just appended at the old length. -/
lemma set_append_length (l : List value) (a b : value) :
    (l ++ [a]).set l.length b = l ++ [b] := by
  induction l with
  | nil => rfl
  | cons x xs ih => simp [List.set, ih]

/-- C8: decorating a zero-receiver-parameter function `f` on a fresh
`value(path)` and then chaining `.setter` with `g` yields ONE declaration
object carrying both accessors (`fget` from `f`, `fset` from `g`); the
object is appended to the global registry exactly once, by `__rcall__` at
creation; `.setter` returns the same object and registers nothing, and so
do `.getter` and `.deleter`.  The invariant hypothesis says every already
registered identity points into the heap, as Python references do. -/
theorem c8_chained_declaration_registered_once (st : WireState) (path : String)
    (f g : PyFn) (hf : (nonReceiver f.params).length = 0)
    (hinv : ∀ j ∈ st.to_wire, j < st.heap.length) :
    ∃ st3 : WireState,
      (rcall (mkValue st path).2 (mkValue st path).1 f).2 = Except.ok () ∧
      setterOp (rcall (mkValue st path).2 (mkValue st path).1 f).1
          (mkValue st path).1 g = (st3, (mkValue st path).1) ∧
      st3.heap = st.heap ++
        [⟨path, some ⟨f.name, f.getSem⟩, some ⟨g.name, g.setSem⟩, Option.none⟩] ∧
      st3.to_wire = st.to_wire ++ [(mkValue st path).1] ∧
      st3.to_wire.count (mkValue st path).1 = 1 ∧
      (∀ h : PyFn, (getterOp st3 (mkValue st path).1 h).2 = (mkValue st path).1 ∧
        (getterOp st3 (mkValue st path).1 h).1.to_wire = st3.to_wire) ∧
      (∀ h : PyFn, (deleterOp st3 (mkValue st path).1 h).2 = (mkValue st path).1 ∧
        (deleterOp st3 (mkValue st path).1 h).1.to_wire = st3.to_wire) := by
  have hmem : (mkValue st path).1 ∉ st.to_wire := by
    intro hm
    exact absurd (hinv _ hm) (lt_irrefl _)
  refine ⟨⟨st.heap ++
      [⟨path, some ⟨f.name, f.getSem⟩, some ⟨g.name, g.setSem⟩, Option.none⟩],
      st.to_wire ++ [(mkValue st path).1]⟩, ?_, ?_, rfl, rfl, ?_,
    fun h => ⟨rfl, rfl⟩, fun h => ⟨rfl, rfl⟩⟩
  · simp [mkValue, rcall, hf]
  · simp [mkValue, rcall, setterOp, hf, getD_append_length, set_append_length]
  · rw [List.count_append]
    simp [List.count_eq_zero.mpr hmem]

/-- A concrete run of the chained-declaration theorem: empty initial state,
getter named `x` with receiver only, setter named `x` with one value
parameter. -/
theorem c8_chained_declaration_registered_once_witness :
    ∃ st3 : WireState,
      (rcall (mkValue ⟨[], []⟩ "p").2 (mkValue ⟨[], []⟩ "p").1
          ⟨"x", ["self"], fun _ => Val.none, fun i _ => i⟩).2 = Except.ok () ∧
      setterOp (rcall (mkValue ⟨[], []⟩ "p").2 (mkValue ⟨[], []⟩ "p").1
          ⟨"x", ["self"], fun _ => Val.none, fun i _ => i⟩).1
          (mkValue ⟨[], []⟩ "p").1
          ⟨"x", ["self", "v"], fun _ => Val.none, fun i v => upsert i "x" v⟩ =
        (st3, (mkValue ⟨[], []⟩ "p").1) ∧
      st3.heap = [] ++
        [⟨"p", some ⟨"x", fun _ => Val.none⟩,
          some ⟨"x", fun i v => upsert i "x" v⟩, Option.none⟩] ∧
      st3.to_wire = [] ++ [(mkValue ⟨[], []⟩ "p").1] ∧
      st3.to_wire.count (mkValue ⟨[], []⟩ "p").1 = 1 ∧
      (∀ h : PyFn, (getterOp st3 (mkValue ⟨[], []⟩ "p").1 h).2 =
          (mkValue ⟨[], []⟩ "p").1 ∧
        (getterOp st3 (mkValue ⟨[], []⟩ "p").1 h).1.to_wire = st3.to_wire) ∧
      (∀ h : PyFn, (deleterOp st3 (mkValue ⟨[], []⟩ "p").1 h).2 =
          (mkValue ⟨[], []⟩ "p").1 ∧
        (deleterOp st3 (mkValue ⟨[], []⟩ "p").1 h).1.to_wire = st3.to_wire) :=
  c8_chained_declaration_registered_once ⟨[], []⟩ "p"
    ⟨"x", ["self"], fun _ => Val.none, fun i _ => i⟩
    ⟨"x", ["self", "v"], fun _ => Val.none, fun i v => upsert i "x" v⟩
    (by decide) (by simp)

/-- C9: `__rcall__` classifies the decorated function by its parameter
count after popping the receiver names `self` and `cls`: zero remaining
parameters installs it as the read accessor, exactly one as the write
accessor (each also registering the declaration), and more than one raises
`AttributeError` immediately, leaving the state untouched. -/
theorem c9_accessor_classification (st : WireState) (id : Nat) (f : PyFn) :
    ((nonReceiver f.params).length = 0 →
      rcall st id f =
        ({ heap := st.heap.set id
             { st.heap.getD id default with fget := some ⟨f.name, f.getSem⟩ },
           to_wire := st.to_wire ++ [id] }, Except.ok ())) ∧
    ((nonReceiver f.params).length = 1 →
      rcall st id f =
        ({ heap := st.heap.set id
             { st.heap.getD id default with fset := some ⟨f.name, f.setSem⟩ },
           to_wire := st.to_wire ++ [id] }, Except.ok ())) ∧
    (1 < (nonReceiver f.params).length →
      rcall st id f = (st, Except.error ())) := by
  refine ⟨fun h0 => ?_, fun h1 => ?_, fun h2 => ?_⟩
  · simp [rcall, h0]
  · simp [rcall, h1]
  · have hne0 : (nonReceiver f.params).length ≠ 0 := by omega
    have hne1 : (nonReceiver f.params).length ≠ 1 := by omega
    simp [rcall, hne0, hne1]

/-- Concrete runs of the classification theorem: a getter-shaped function
(`self` only), a setter-shaped function (`self` plus one parameter) and an
over-long function (`self` plus two parameters) on a one-object heap. -/
theorem c9_accessor_classification_witness :
    rcall ⟨[⟨"p", Option.none, Option.none, Option.none⟩], []⟩ 0
        ⟨"g", ["self"], fun _ => Val.none, fun i _ => i⟩ =
      ({ heap := [⟨"p", some ⟨"g", fun _ => Val.none⟩, Option.none,
           Option.none⟩], to_wire := [0] }, Except.ok ()) ∧
    rcall ⟨[⟨"p", Option.none, Option.none, Option.none⟩], []⟩ 0
        ⟨"s", ["self", "v"], fun _ => Val.none, fun i _ => i⟩ =
      ({ heap := [⟨"p", Option.none, some ⟨"s", fun i _ => i⟩,
           Option.none⟩], to_wire := [0] }, Except.ok ()) ∧
    rcall ⟨[⟨"p", Option.none, Option.none, Option.none⟩], []⟩ 0
        ⟨"u", ["self", "v", "w"], fun _ => Val.none, fun i _ => i⟩ =
      (⟨[⟨"p", Option.none, Option.none, Option.none⟩], []⟩,
        Except.error ()) :=
  ⟨(c9_accessor_classification _ 0 _).1 (by decide),
   (c9_accessor_classification _ 0 _).2.1 (by decide),
   (c9_accessor_classification _ 0 _).2.2 (by decide)⟩

/-- C10: when decoration fails because the function keeps more than one
parameter after popping `self` and `cls`, the `AttributeError` is raised
before the registry append, so the whole state -- in particular the global
registry `_to_wire` -- is returned exactly as it was. -/
theorem c10_registry_unchanged_on_declaration_error (st : WireState)
    (id : Nat) (f : PyFn) (h : 1 < (nonReceiver f.params).length) :
    rcall st id f = (st, Except.error ()) ∧
    (rcall st id f).1.to_wire = st.to_wire := by
  have hne0 : (nonReceiver f.params).length ≠ 0 := by omega
  have hne1 : (nonReceiver f.params).length ≠ 1 := by omega
  constructor
  · simp [rcall, hne0, hne1]
  · simp [rcall, hne0, hne1]

/-- A concrete failed decoration: a function with three receiver-independent
parameters on a nonempty state; the registry stays `[0]`. -/
theorem c10_registry_unchanged_on_declaration_error_witness :
    rcall ⟨[⟨"q", Option.none, Option.none, Option.none⟩], [0]⟩ 1
        ⟨"t", ["self", "a", "b", "c"], fun _ => Val.none, fun i _ => i⟩ =
      (⟨[⟨"q", Option.none, Option.none, Option.none⟩], [0]⟩,
        Except.error ()) ∧
    (rcall ⟨[⟨"q", Option.none, Option.none, Option.none⟩], [0]⟩ 1
        ⟨"t", ["self", "a", "b", "c"], fun _ => Val.none, fun i _ => i⟩).1.to_wire
      = [0] :=
  c10_registry_unchanged_on_declaration_error _ 1 _ (by decide)

/-- Phase 1 only ever adds names to `arguments`. -/
lemma phase1_argNames_mono (parser : Parser) (ak : List String)
    (lp : String) :
    ∀ (l : List String) (acc : P1Acc) (x : String),
      x ∈ acc.argNames → x ∈ (phase1 parser ak lp l acc).argNames := by
  intro l
  induction l with
  | nil =>
      intro acc x hx
      simpa [phase1] using hx
  | cons p rest ih =>
      intro acc x hx
      by_cases hc : p ∈ ak ∧ p ∉ acc.argNames
      · cases hpr : parser lp with
        | ok v =>
            simp only [phase1, if_pos hc, hpr]
            exact ih _ _ (List.mem_append_left _ hx)
        | error e =>
            simp only [phase1, if_pos hc, hpr]
            exact ih _ _ hx
      · simp only [phase1, if_neg hc]
        exact ih _ _ hx

/-- Every parser consultation phase 1 adds is for a parameter that was not
in `arguments` when phase 1 reached it -- in particular not among the names
already bound when phase 1 started. -/
lemma phase1_calls_track (parser : Parser) (ak : List String) (lp : String) :
    ∀ (l : List String) (acc : P1Acc) (c : PCall),
      c ∈ (phase1 parser ak lp l acc).calls →
      c ∈ acc.calls ∨ c.name ∉ acc.argNames := by
  intro l
  induction l with
  | nil =>
      intro acc c hc
      exact Or.inl (by simpa [phase1] using hc)
  | cons p rest ih =>
      intro acc c hc
      by_cases hcond : p ∈ ak ∧ p ∉ acc.argNames
      · cases hpr : parser lp with
        | ok v =>
            simp only [phase1, if_pos hcond, hpr] at hc
            rcases ih _ _ hc with hin | hout
            · rcases List.mem_append.mp hin with h1 | h2
              · exact Or.inl h1
              · have : c = ⟨Phase.one, p, lp⟩ := by simpa using h2
                subst this
                exact Or.inr hcond.2
            · refine Or.inr fun hmem => hout ?_
              exact List.mem_append_left _ hmem
        | error e =>
            simp only [phase1, if_pos hcond, hpr] at hc
            rcases ih _ _ hc with hin | hout
            · rcases List.mem_append.mp hin with h1 | h2
              · exact Or.inl h1
              · have : c = ⟨Phase.one, p, lp⟩ := by simpa using h2
                subst this
                exact Or.inr hcond.2
            · exact Or.inr hout
      · simp only [phase1, if_neg hcond] at hc
        exact ih _ _ hc

/-- Every parser consultation phase 2 adds is for a write-accessor name not
in `arguments`. -/
lemma phase2_calls_track (parser : Parser) (an : List String) :
    ∀ (l : List value) (acc : P2Acc) (c : PCall),
      c ∈ (phase2 parser an l acc).calls →
      c ∈ acc.calls ∨ c.name ∉ an := by
  intro l
  induction l with
  | nil =>
      intro acc c hc
      exact Or.inl (by simpa [phase2] using hc)
  | cons v rest ih =>
      intro acc c hc
      match hs : v.fset with
      | Option.none =>
          simp only [phase2, hs] at hc
          exact ih _ _ hc
      | some s =>
          by_cases hn : s.name ∈ an
          · simp only [phase2, hs, if_pos hn] at hc
            exact ih _ _ hc
          · cases hpr : parser v.path with
            | ok x =>
                simp only [phase2, hs, if_neg hn, hpr] at hc
                rcases ih _ _ hc with hin | hout
                · rcases List.mem_append.mp hin with h1 | h2
                  · exact Or.inl h1
                  · have : c = ⟨Phase.two, s.name, v.path⟩ := by simpa using h2
                    subst this
                    exact Or.inr hn
                · exact Or.inr hout
            | error e =>
                simp only [phase2, hs, if_neg hn, hpr] at hc
                rcases ih _ _ hc with hin | hout
                · rcases List.mem_append.mp hin with h1 | h2
                  · exact Or.inl h1
                  · have : c = ⟨Phase.two, s.name, v.path⟩ := by simpa using h2
                    subst this
                    exact Or.inr hn
                · exact Or.inr hout

/-- With a parser that never succeeds, phase 1 leaves `kwargs` untouched. -/
lemma phase1_kwargs_const (parser : Parser) (ak : List String) (lp : String)
    (hp : ∀ x v, parser x ≠ Except.ok v) :
    ∀ (l : List String) (acc : P1Acc),
      (phase1 parser ak lp l acc).kwargs = acc.kwargs := by
  intro l
  induction l with
  | nil => intro acc; rfl
  | cons p rest ih =>
      intro acc
      by_cases hc : p ∈ ak ∧ p ∉ acc.argNames
      · cases hpr : parser lp with
        | ok v => exact absurd hpr (hp _ _)
        | error e => simp only [phase1, if_pos hc, hpr]; exact ih _
      · simp only [phase1, if_neg hc]; exact ih _

/-- With a parser that never succeeds, phase 2 leaves the instance
untouched. -/
lemma phase2_inst_const (parser : Parser) (an : List String)
    (hp : ∀ x v, parser x ≠ Except.ok v) :
    ∀ (l : List value) (acc : P2Acc),
      (phase2 parser an l acc).inst = acc.inst := by
  intro l
  induction l with
  | nil => intro acc; rfl
  | cons v rest ih =>
      intro acc
      match hs : v.fset with
      | Option.none => simp only [phase2, hs]; exact ih _
      | some s =>
          by_cases hn : s.name ∈ an
          · simp only [phase2, hs, if_pos hn]; exact ih _
          · cases hpr : parser v.path with
            | ok x => exact absurd hpr (hp _ _)
            | error e => simp only [phase2, hs, if_neg hn, hpr]; exact ih _

/-- C6: if a caller of the wrapped constructor explicitly supplies a value
for a parameter -- positionally or by keyword, i.e. the name is among the
names bound by `bind_partial` -- then no parser consultation of either
phase is for that name: phase 1 skips the parameter because it is in
`arguments`, and phase 2 skips every write accessor of that name because
`arguments` only grows. -/
theorem c6_explicit_argument_precedence (ci : PyInit) (values : List value)
    (parser : Parser) (self : Inst) (args : List Val)
    (kwargs : List (String × Val)) (bound : List String) (p : String)
    (inst : Inst) (calls : List PCall)
    (hb : bind_args ci.params args kwargs = Except.ok bound)
    (hp : p ∈ bound)
    (hr : new_init ci values parser self args kwargs =
      Except.ok (inst, calls)) :
    ∀ c ∈ calls, c.name ≠ p := by
  intro c hc
  rw [new_init, hb] at hr
  dsimp only at hr
  cases hci : call_init ci self args
      (phase1 parser (attr_map_keys values) (last_path values) ci.params
        { kwargs := kwargs, argNames := bound, calls := [] }).kwargs with
  | error e => rw [hci] at hr; exact absurd hr (by simp)
  | ok inst1 =>
      rw [hci] at hr
      have hcalls : calls =
          (phase2 parser
            (phase1 parser (attr_map_keys values) (last_path values)
              ci.params
              { kwargs := kwargs, argNames := bound, calls := [] }).argNames
            values
            { inst := inst1,
              calls := (phase1 parser (attr_map_keys values)
                (last_path values) ci.params
                { kwargs := kwargs, argNames := bound, calls := [] }).calls }).calls := by
        have := hr
        simp only [Except.ok.injEq, Prod.mk.injEq] at this
        exact this.2.symm
      rw [hcalls] at hc
      rcases phase2_calls_track parser _ values _ c hc with hin | hout
      · rcases phase1_calls_track parser _ _ ci.params _ c hin with h0 | hn
        · exact absurd h0 (List.not_mem_nil c)
        · intro he
          exact hn (he ▸ hp)
      · intro he
        apply hout
        rw [he]
        exact phase1_argNames_mono parser _ _ ci.params _ p hp

/-- A concrete run of explicit-argument precedence: the sanity-test class
with `i` supplied positionally as `5`; the only parser consultation is the
phase-2 one for `bar`, never one for `i`. -/
theorem c6_explicit_argument_precedence_witness :
    (⟨Phase.two, "bar", "path.to.bar"⟩ : PCall).name ≠ "i" :=
  c6_explicit_argument_precedence fooCi [barDecl, iDecl] okParser []
    [Val.int 5] [] ["self", "i"] "i"
    [("_foo__bar", Val.str "ok"), ("_foo__i", Val.int 5)]
    [⟨Phase.two, "bar", "path.to.bar"⟩] rfl (by simp) rfl
    ⟨Phase.two, "bar", "path.to.bar"⟩ (by simp)

/-- Binding with only the receiver and every remaining parameter defaulted
succeeds, producing the defaults in parameter order. -/
lemma build_bound_all_defaults (defaults : List (String × Val)) :
    ∀ ps : List String, (∀ p ∈ ps, (alookup defaults p).isSome) →
      ∃ r, build_bound ps [] [] defaults = Except.ok r := by
  intro ps
  induction ps with
  | nil => exact fun _ => ⟨[], rfl⟩
  | cons p rest ih =>
      intro h
      obtain ⟨v, hv⟩ := Option.isSome_iff_exists.mp (h p (List.mem_cons_self p rest))
      obtain ⟨r, hr⟩ := ih fun q hq => h q (List.mem_cons_of_mem p hq)
      exact ⟨(p, v) :: r, by simp [build_bound, alookup, hv, hr]⟩

/-- `bind_partial(self)` with no further arguments binds exactly the
receiver. -/
lemma bind_args_noargs (params : List String) (h : 1 ≤ params.length) :
    bind_args params [] [] = Except.ok (params.take 1) := by
  have h1 : ¬ params.length < 1 := by omega
  rw [bind_args]
  dsimp only [List.length_nil, Nat.add_zero]
  rw [if_neg h1]
  dsimp only [check_kwargs]
  simp

/-- C7: with the registered parser raising on every call, constructing an
instance of a wired class whose original constructor has no required
parameters (every non-receiver parameter has a default) succeeds with no
exception reaching the caller, and the instance is exactly what the
original constructor produces from its defaults: phase 1 injects nothing
into `kwargs` and phase 2 never touches the instance, so every injectable
attribute keeps the default the original constructor set. -/
theorem c7_failing_parser_leaves_defaults (ci : PyInit) (values : List value)
    (parser : Parser) (self : Inst)
    (hp : ∀ x v, parser x ≠ Except.ok v)
    (hlen : 1 ≤ ci.params.length)
    (hdef : ∀ p ∈ ci.params.drop 1, (alookup ci.defaults p).isSome) :
    ∃ i0 calls, call_init ci self [] [] = Except.ok i0 ∧
      new_init ci values parser self [] [] = Except.ok (i0, calls) := by
  obtain ⟨r, hr⟩ := build_bound_all_defaults ci.defaults (ci.params.drop 1) hdef
  have h1 : ¬ ci.params.length < 1 := by omega
  have hci : call_init ci self [] [] = Except.ok (ci.body self r) := by
    rw [call_init]
    dsimp only [List.length_nil, Nat.add_zero]
    rw [if_neg h1]
    dsimp only [check_kwargs]
    rw [hr]
  have hni : ∃ cs, new_init ci values parser self [] [] =
      Except.ok (ci.body self r, cs) := by
    rw [new_init, bind_args_noargs ci.params hlen]
    dsimp only
    simp only [phase1_kwargs_const parser (attr_map_keys values)
      (last_path values) hp]
    rw [hci]
    dsimp only
    simp only [phase2_inst_const parser _ hp]
    exact ⟨_, rfl⟩
  obtain ⟨cs, hcs⟩ := hni
  exact ⟨ci.body self r, cs, hci, hcs⟩

/-- A constructor `__init__(self, x=7)` storing `x`, with an injectable
read/write declaration `x`. -/
def xDefCi : PyInit :=
  { params := ["self", "x"], defaults := [("x", Val.int 7)],
    body := fun self bound => bound.foldl (fun i p => upsert i p.1 p.2) self }

/-- The `x` declaration at path `path.x` (read and write accessors). -/
def xDecl : value :=
  { path := "path.x", fget := some ⟨"x", fun i => getAttr i "x"⟩,
    fset := some ⟨"x", fun i v => upsert i "x" v⟩, fdel := Option.none }

/-- A parser that raises on every call. -/
def boomParser : Parser := fun _ => Except.error "boom"

/-- A concrete run with the always-raising parser on `__init__(self, x=7)`:
construction succeeds and `x` keeps the default. -/
theorem c7_failing_parser_leaves_defaults_witness :
    ∃ i0 calls, call_init xDefCi [] [] [] = Except.ok i0 ∧
      new_init xDefCi [xDecl] boomParser [] [] [] = Except.ok (i0, calls) :=
  c7_failing_parser_leaves_defaults xDefCi [xDecl] boomParser []
    (fun x v h => Except.noConfusion h) (by decide) (by decide)

/-- C4 counterexample: the claim says a parser exception during injection is
never propagated to the caller of `wire_all`; but for a module-level
declaration with a write accessor, `wire_all` calls the parser outside any
`try`, so with an always-raising parser `wire_all` itself raises. -/
theorem c4_counterexample_module_injection_error_escapes :
    wire_all [⟨⟨"p", Option.none, some ⟨"s", fun i _ => i⟩, Option.none⟩,
        Owner.mod⟩] boomParser = Except.error "boom" := rfl

/-- C4 amended: parser exceptions are caught locally per injection attempt
during CLASS-LEVEL injection -- inside the generated wrapper, both phase 1
and phase 2 swallow them -- so a wrapper call can only fail from argument
binding or from the original constructor itself; module-level function
injection, by contrast, lets parser exceptions propagate to the caller of
`wire_all`. -/
theorem c4_amended_class_injection_errors_confined (ci : PyInit)
    (values : List value) (parser : Parser) (self : Inst) (args : List Val)
    (kwargs : List (String × Val)) (msg : String)
    (h : new_init ci values parser self args kwargs = Except.error msg) :
    bind_args ci.params args kwargs = Except.error msg ∨
    ∃ kw, call_init ci self args kw = Except.error msg := by
  rw [new_init] at h
  cases hb : bind_args ci.params args kwargs with
  | error e =>
      rw [hb] at h
      dsimp only at h
      injection h with h'
      subst h'
      exact Or.inl rfl
  | ok bound =>
      rw [hb] at h
      dsimp only at h
      cases hc : call_init ci self args
          (phase1 parser (attr_map_keys values) (last_path values) ci.params
            { kwargs := kwargs, argNames := bound, calls := [] }).kwargs with
      | error e =>
          rw [hc] at h
          dsimp only at h
          injection h with h'
          subst h'
          exact Or.inr ⟨_, hc⟩
      | ok i1 =>
          rw [hc] at h
          dsimp only at h
          exact absurd h (by simp)

/-- A constructor `__init__(self, x)` with a required parameter and no
declarations. -/
def reqCi : PyInit :=
  { params := ["self", "x"], defaults := [], body := fun self _ => self }

/-- A concrete failing wrapper call: the missing required argument `x`
comes from the original constructor, not from the parser. -/
theorem c4_amended_class_injection_errors_confined_witness :
    bind_args reqCi.params [] [] =
      Except.error "missing required argument x" ∨
    ∃ kw, call_init reqCi [] [] kw =
      Except.error "missing required argument x" :=
  c4_amended_class_injection_errors_confined reqCi [] okParser [] [] []
    "missing required argument x" rfl

/-- Processing a registry entry raises nothing: its owner is not the
defensive `AttributeError` case, and if it is a module-level declaration
with a write accessor then the parser succeeds on its path. -/
def stepOk (parser : Parser) (e : RegEntry) : Prop :=
  e.owner ≠ Owner.other ∧
  ∀ s : SetAcc, e.owner = Owner.mod → e.decl.fset = some s →
    ∃ v, parser e.decl.path = Except.ok v

/-- If every entry before `e` processes without raising, and `e` is a
module-level declaration with a write accessor whose parser call raises,
the registry pass stops with exactly that error. -/
lemma wire_loop_error_surfaces (parser : Parser) (e : RegEntry) (s : SetAcc)
    (msg : String) (hm : e.owner = Owner.mod) (hs : e.decl.fset = some s)
    (hp : parser e.decl.path = Except.error msg) :
    ∀ (pre post : List RegEntry) (i0 : Nat) (cmap : List (Nat × List value)),
      (∀ x ∈ pre, stepOk parser x) →
      wire_loop parser i0 (pre ++ e :: post) cmap = Except.error msg := by
  intro pre
  induction pre with
  | nil =>
      intro post i0 cmap _
      simp [wire_loop, hm, hs, hp]
  | cons x pre ih =>
      intro post i0 cmap hok
      have hx := hok x (List.mem_cons_self x pre)
      have hrest : ∀ y ∈ pre, stepOk parser y :=
        fun y hy => hok y (List.mem_cons_of_mem x hy)
      cases ho : x.owner with
      | orphan =>
          simp only [List.cons_append, wire_loop, ho]
          exact ih post (i0 + 1) cmap hrest
      | cls c =>
          simp only [List.cons_append, wire_loop, ho]
          exact ih post (i0 + 1) (add_to_group cmap c x.decl) hrest
      | mod =>
          cases hxs : x.decl.fset with
          | none =>
              simp only [List.cons_append, wire_loop, ho, hxs]
              exact ih post (i0 + 1) cmap hrest
          | some s' =>
              obtain ⟨v, hv⟩ := hx.2 s' ho hxs
              simp only [List.cons_append, wire_loop, ho, hxs, hv,
                List.append_eq]
              rw [ih post (i0 + 1) cmap hrest]
      | other =>
          exact absurd ho hx.1

/-- C3: if a declaration's owning scope resolves to the declaring module
itself and the declaration has a write accessor, and the parser raises on
its path, then -- provided the entries processed before it raise nothing --
the exception is not caught and `wire_all` itself fails with it. -/
theorem c3_module_parser_error_propagates (parser : Parser)
    (pre post : List RegEntry) (e : RegEntry) (s : SetAcc) (msg : String)
    (hm : e.owner = Owner.mod) (hs : e.decl.fset = some s)
    (hp : parser e.decl.path = Except.error msg)
    (hok : ∀ x ∈ pre, stepOk parser x) :
    wire_all (pre ++ e :: post) parser = Except.error msg := by
  rw [wire_all, wire_loop_error_surfaces parser e s msg hm hs hp pre post 0 []
    hok]

/-- A module-level write declaration whose parser call raises `down`,
preceded by a harmlessly skipped orphan entry and followed by a class
entry: `wire_all` propagates the parser's exception. -/
theorem c3_module_parser_error_propagates_witness :
    wire_all
      [⟨⟨"o", some ⟨"g", fun _ => Val.none⟩, Option.none, Option.none⟩,
         Owner.orphan⟩,
       ⟨⟨"q", Option.none, some ⟨"set_q", fun i _ => i⟩, Option.none⟩,
         Owner.mod⟩,
       ⟨xDecl, Owner.cls 0⟩]
      (fun _ => Except.error "down") = Except.error "down" :=
  c3_module_parser_error_propagates (fun _ => Except.error "down")
    [⟨⟨"o", some ⟨"g", fun _ => Val.none⟩, Option.none, Option.none⟩,
       Owner.orphan⟩]
    [⟨xDecl, Owner.cls 0⟩]
    ⟨⟨"q", Option.none, some ⟨"set_q", fun i _ => i⟩, Option.none⟩,
      Owner.mod⟩
    ⟨"set_q", fun i _ => i⟩ "down" rfl rfl rfl
    (by
      intro x hx
      simp only [List.mem_singleton] at hx
      subst hx
      exact ⟨by decide, fun s h hs => Owner.noConfusion h⟩)

/-- Predicate picking out the parser call made while processing registry
index `i`. -/
def isParserIdx (i : Nat) : WEvent → Bool
  | WEvent.parserCall j _ => j == i
  | _ => false

/-- Predicate picking out the write-accessor call made while processing
registry index `i`. -/
def isFsetIdx (i : Nat) : WEvent → Bool
  | WEvent.fsetCall j _ _ => j == i
  | _ => false

/-- An event carrying a different registry index is not index `i`'s parser
call. -/
lemma isParserIdx_false_of_ne (i j : Nat) (ev : WEvent)
    (hj : WEvent.idx? ev = some j) (hne : j ≠ i) :
    isParserIdx i ev = false := by
  cases ev with
  | parserCall j' p =>
      simp only [WEvent.idx?, Option.some.injEq] at hj
      subst hj
      simp [isParserIdx, hne]
  | fsetCall j' n v => rfl
  | rcallReset j' n => rfl
  | wrap c vs => rfl

/-- An event carrying a different registry index is not index `i`'s
write-accessor call. -/
lemma isFsetIdx_false_of_ne (i j : Nat) (ev : WEvent)
    (hj : WEvent.idx? ev = some j) (hne : j ≠ i) :
    isFsetIdx i ev = false := by
  cases ev with
  | fsetCall j' n v =>
      simp only [WEvent.idx?, Option.some.injEq] at hj
      subst hj
      simp [isFsetIdx, hne]
  | parserCall j' p => rfl
  | rcallReset j' n => rfl
  | wrap c vs => rfl

/-- An event carrying a registry index is not a constructor replacement. -/
lemma isWrap_false_of_idx (ev : WEvent) (j : Nat)
    (hj : WEvent.idx? ev = some j) : ev.isWrap = false := by
  cases ev with
  | wrap c vs => exact absurd hj (by simp [WEvent.idx?])
  | parserCall j' p => rfl
  | fsetCall j' n v => rfl
  | rcallReset j' n => rfl

/-- Every event emitted by the registry pass carries a registry index at
least the starting index -- in particular, the pass emits no `wrap`
events. -/
lemma wire_loop_events (parser : Parser) :
    ∀ (l : List RegEntry) (i0 : Nat) (cmap : List (Nat × List value))
      (tr : List WEvent) (cm : List (Nat × List value)),
      wire_loop parser i0 l cmap = Except.ok (tr, cm) →
      ∀ ev ∈ tr, ∃ j, WEvent.idx? ev = some j ∧ i0 ≤ j := by
  intro l
  induction l with
  | nil =>
      intro i0 cmap tr cm h ev hev
      simp only [wire_loop, Except.ok.injEq, Prod.mk.injEq] at h
      obtain ⟨h1, h2⟩ := h
      subst h1
      exact absurd hev (List.not_mem_nil ev)
  | cons x rest ih =>
      intro i0 cmap tr cm h ev hev
      have step : ∀ cmap', wire_loop parser (i0 + 1) rest cmap' =
          Except.ok (tr, cm) → ∃ j, WEvent.idx? ev = some j ∧ i0 ≤ j :=
        fun cmap' h' => by
          obtain ⟨j, hj, hge⟩ := ih (i0 + 1) cmap' tr cm h' ev hev
          exact ⟨j, hj, by omega⟩
      cases ho : x.owner with
      | orphan =>
          simp only [wire_loop, ho] at h
          exact step cmap h
      | cls c =>
          simp only [wire_loop, ho] at h
          exact step (add_to_group cmap c x.decl) h
      | mod =>
          cases hxs : x.decl.fset with
          | none =>
              simp only [wire_loop, ho, hxs] at h
              exact step cmap h
          | some s =>
              cases hpr : parser x.decl.path with
              | error m =>
                  simp only [wire_loop, ho, hxs, hpr] at h
                  exact Except.noConfusion h
              | ok v =>
                  simp only [wire_loop, ho, hxs, hpr] at h
                  cases hrec : wire_loop parser (i0 + 1) rest cmap with
                  | error m => rw [hrec] at h; exact absurd h (by simp)
                  | ok p =>
                      obtain ⟨tr', cm'⟩ := p
                      rw [hrec] at h
                      simp only [Except.ok.injEq, Prod.mk.injEq] at h
                      obtain ⟨h1, h2⟩ := h
                      subst h1
                      simp only [List.mem_cons] at hev
                      rcases hev with rfl | rfl | rfl | hmem
                      · exact ⟨i0, rfl, Nat.le_refl i0⟩
                      · exact ⟨i0, rfl, Nat.le_refl i0⟩
                      · exact ⟨i0, rfl, Nat.le_refl i0⟩
                      · obtain ⟨j, hj, hge⟩ :=
                          ih (i0 + 1) cmap tr' cm' hrec ev hmem
                        exact ⟨j, hj, by omega⟩
      | other =>
          simp only [wire_loop, ho] at h
          exact Except.noConfusion h

/-- For a module-level declaration with a write accessor at position `k` of
the remaining registry, a successful pass contains exactly one parser call
tagged with its index, on its path, and exactly one write-accessor call
tagged with its index, receiving the parser's return value. -/
lemma wire_loop_mod_filter (parser : Parser) :
    ∀ (l : List RegEntry) (i0 : Nat) (cmap : List (Nat × List value))
      (tr : List WEvent) (cm : List (Nat × List value)) (k : Nat)
      (e : RegEntry) (s : SetAcc),
      wire_loop parser i0 l cmap = Except.ok (tr, cm) →
      l.get? k = some e → e.owner = Owner.mod → e.decl.fset = some s →
      ∃ v, parser e.decl.path = Except.ok v ∧
        tr.filter (isParserIdx (i0 + k)) =
          [WEvent.parserCall (i0 + k) e.decl.path] ∧
        tr.filter (isFsetIdx (i0 + k)) =
          [WEvent.fsetCall (i0 + k) s.name v] := by
  intro l
  induction l with
  | nil =>
      intro i0 cmap tr cm k e s h hk hm hs
      exact absurd hk (by simp)
  | cons x rest ih =>
      intro i0 cmap tr cm k e s h hk hm hs
      cases k with
      | zero =>
          have hex : x = e := by simpa using hk
          subst hex
          cases hpr : parser x.decl.path with
          | error m =>
              simp only [wire_loop, hm, hs, hpr] at h
              exact Except.noConfusion h
          | ok v =>
              simp only [wire_loop, hm, hs, hpr] at h
              cases hrec : wire_loop parser (i0 + 1) rest cmap with
              | error m => rw [hrec] at h; exact absurd h (by simp)
              | ok p =>
                  obtain ⟨tr', cm'⟩ := p
                  rw [hrec] at h
                  simp only [Except.ok.injEq, Prod.mk.injEq] at h
                  obtain ⟨h1, h2⟩ := h
                  subst h1
                  refine ⟨v, rfl, ?_, ?_⟩
                  · have hnil : tr'.filter (isParserIdx i0) = [] := by
                      rw [List.filter_eq_nil_iff]
                      intro a ha
                      obtain ⟨j, hj, hge⟩ :=
                        wire_loop_events parser rest (i0 + 1) cmap tr' cm'
                          hrec a ha
                      have hne : j ≠ i0 := by omega
                      rw [isParserIdx_false_of_ne i0 j a hj hne]
                      exact Bool.false_ne_true
                    have hpc : isParserIdx i0
                        (WEvent.parserCall i0 x.decl.path) = true := by
                      simp [isParserIdx]
                    have hfc : isParserIdx i0
                        (WEvent.fsetCall i0 s.name v) = false := rfl
                    have hrr : isParserIdx i0
                        (WEvent.rcallReset i0 s.name) = false := rfl
                    simp [List.filter_cons, hpc, hfc, hrr, hnil]
                  · have hnil : tr'.filter (isFsetIdx i0) = [] := by
                      rw [List.filter_eq_nil_iff]
                      intro a ha
                      obtain ⟨j, hj, hge⟩ :=
                        wire_loop_events parser rest (i0 + 1) cmap tr' cm'
                          hrec a ha
                      have hne : j ≠ i0 := by omega
                      rw [isFsetIdx_false_of_ne i0 j a hj hne]
                      exact Bool.false_ne_true
                    have hpc : isFsetIdx i0
                        (WEvent.parserCall i0 x.decl.path) = false := rfl
                    have hfc : isFsetIdx i0
                        (WEvent.fsetCall i0 s.name v) = true := by
                      simp [isFsetIdx]
                    have hrr : isFsetIdx i0
                        (WEvent.rcallReset i0 s.name) = false := rfl
                    simp [List.filter_cons, hpc, hfc, hrr, hnil]
      | succ k' =>
          have hk' : rest.get? k' = some e := by simpa using hk
          have hidx : i0 + (k' + 1) = (i0 + 1) + k' := by omega
          cases ho : x.owner with
          | orphan =>
              simp only [wire_loop, ho] at h
              rw [hidx]
              exact ih (i0 + 1) cmap tr cm k' e s h hk' hm hs
          | cls c =>
              simp only [wire_loop, ho] at h
              rw [hidx]
              exact ih (i0 + 1) (add_to_group cmap c x.decl) tr cm k' e s h
                hk' hm hs
          | mod =>
              cases hxs : x.decl.fset with
              | none =>
                  simp only [wire_loop, ho, hxs] at h
                  rw [hidx]
                  exact ih (i0 + 1) cmap tr cm k' e s h hk' hm hs
              | some s' =>
                  cases hpr : parser x.decl.path with
                  | error m =>
                      simp only [wire_loop, ho, hxs, hpr] at h
                      exact Except.noConfusion h
                  | ok v' =>
                      simp only [wire_loop, ho, hxs, hpr] at h
                      cases hrec : wire_loop parser (i0 + 1) rest cmap with
                      | error m => rw [hrec] at h; exact absurd h (by simp)
                      | ok p =>
                          obtain ⟨tr', cm'⟩ := p
                          rw [hrec] at h
                          simp only [Except.ok.injEq, Prod.mk.injEq] at h
                          obtain ⟨h1, h2⟩ := h
                          subst h1
                          obtain ⟨v, hv, hf1, hf2⟩ :=
                            ih (i0 + 1) cmap tr' cm' k' e s hrec hk' hm hs
                          rw [hidx]
                          refine ⟨v, hv, ?_, ?_⟩
                          · have e1 : isParserIdx (i0 + 1 + k')
                                (WEvent.parserCall i0 x.decl.path) = false := by
                              simp only [isParserIdx, beq_eq_false_iff_ne,
                                ne_eq]
                              omega
                            have e2 : isParserIdx (i0 + 1 + k')
                                (WEvent.fsetCall i0 s'.name v') = false := rfl
                            have e3 : isParserIdx (i0 + 1 + k')
                                (WEvent.rcallReset i0 s'.name) = false := rfl
                            simp [List.filter_cons, e1, e2, e3, hf1]
                          · have e1 : isFsetIdx (i0 + 1 + k')
                                (WEvent.parserCall i0 x.decl.path) = false :=
                              rfl
                            have e2 : isFsetIdx (i0 + 1 + k')
                                (WEvent.fsetCall i0 s'.name v') = false := by
                              simp only [isFsetIdx, beq_eq_false_iff_ne,
                                ne_eq]
                              omega
                            have e3 : isFsetIdx (i0 + 1 + k')
                                (WEvent.rcallReset i0 s'.name) = false := rfl
                            simp [List.filter_cons, e1, e2, e3, hf2]
          | other =>
              simp only [wire_loop, ho] at h
              exact Except.noConfusion h

/-- C5: for every registry entry whose owning scope is the declaring module
and which has a write accessor, a single successful `wire_all` run calls
the parser exactly once with that declaration's path and passes exactly the
parser's return value as the sole argument to the write accessor; the whole
trace splits into the registry pass (no constructor replacements, and it
contains those two calls) followed by the constructor replacements, so
every function injection completes before any class constructor is
wrapped. -/
theorem c5_function_injection_once_before_wrapping (entries : List RegEntry)
    (parser : Parser) (tr : List WEvent) (i : Nat) (e : RegEntry)
    (s : SetAcc) (h : wire_all entries parser = Except.ok tr)
    (hi : entries.get? i = some e) (hm : e.owner = Owner.mod)
    (hs : e.decl.fset = some s) :
    ∃ v A B, parser e.decl.path = Except.ok v ∧ tr = A ++ B ∧
      (∀ ev ∈ A, ev.isWrap = false) ∧ (∀ ev ∈ B, ev.isWrap = true) ∧
      A.filter (isParserIdx i) = [WEvent.parserCall i e.decl.path] ∧
      A.filter (isFsetIdx i) = [WEvent.fsetCall i s.name v] := by
  rw [wire_all] at h
  cases hl : wire_loop parser 0 entries [] with
  | error m => rw [hl] at h; exact absurd h (by simp)
  | ok p =>
      obtain ⟨tr0, cm⟩ := p
      rw [hl] at h
      dsimp only at h
      injection h with h'
      subst h'
      obtain ⟨v, hv, hf1, hf2⟩ :=
        wire_loop_mod_filter parser entries 0 [] tr0 cm i e s hl hi hm hs
      simp only [Nat.zero_add] at hf1 hf2
      refine ⟨v, tr0, cm.map (fun p => WEvent.wrap p.1 p.2), hv, rfl, ?_, ?_,
        hf1, hf2⟩
      · intro ev hev
        obtain ⟨j, hj, _⟩ := wire_loop_events parser entries 0 [] tr0 cm hl
          ev hev
        exact isWrap_false_of_idx ev j hj
      · intro ev hev
        obtain ⟨q, hq, hqe⟩ := List.mem_map.mp hev
        rw [← hqe]
        rfl

/-- A module-level write declaration `set_m` at path `path.m`. -/
def mDecl : value :=
  { path := "path.m", fget := Option.none,
    fset := some ⟨"set_m", fun i _ => i⟩, fdel := Option.none }

/-- A concrete `wire_all` run over a module-level declaration followed by a
class declaration, with the path-returning parser: the function injection's
two calls happen once each, before the class's constructor is wrapped. -/
theorem c5_function_injection_once_before_wrapping_witness :
    ∃ v A B, idParser "path.m" = Except.ok v ∧
      ([WEvent.parserCall 0 "path.m",
        WEvent.fsetCall 0 "set_m" (Val.str "path.m"),
        WEvent.rcallReset 0 "set_m",
        WEvent.wrap 0 [xDecl]] : List WEvent) = A ++ B ∧
      (∀ ev ∈ A, ev.isWrap = false) ∧ (∀ ev ∈ B, ev.isWrap = true) ∧
      A.filter (isParserIdx 0) = [WEvent.parserCall 0 "path.m"] ∧
      A.filter (isFsetIdx 0) = [WEvent.fsetCall 0 "set_m" v] :=
  c5_function_injection_once_before_wrapping
    [⟨mDecl, Owner.mod⟩, ⟨xDecl, Owner.cls 0⟩] idParser
    [WEvent.parserCall 0 "path.m",
     WEvent.fsetCall 0 "set_m" (Val.str "path.m"),
     WEvent.rcallReset 0 "set_m",
     WEvent.wrap 0 [xDecl]] 0 ⟨mDecl, Owner.mod⟩
    ⟨"set_m", fun i _ => i⟩ rfl rfl rfl rfl

end Wire
